import Mathlib

/-!
# Verification of the database session service core

A shallow embedding, in Lean 4, of the session-storage core of
`src/google/adk/sessions/database_session_service.py`:

* the three-tier state model (app / user / session state),
* the prefix-routed state-delta splitter `_extract_state_delta`,
* the state merge `_merge_state`,
* the engine-aware JSON value codec `DynamicJSON`,
* the microsecond timestamp codec `PreciseTimestamp`,
* the store operations `get_session` and `append_event` with the
  optimistic-concurrency (stale-session) fence,
* the error values the service raises.

Python strings are embedded as `List Char`; JSON-compatible values as the
inductive `JValue` (numbers are modelled as integers); Python `dict`s as
association lists in insertion order, with CPython assignment semantics
(assignment to an existing key replaces in place, otherwise appends);
timestamps as integer microsecond counts.
-/

/-- JSON-compatible Python values: nested string-keyed mappings, sequences,
numbers (modelled as integers), strings, booleans and `None`.  Mappings keep
CPython `dict` insertion order. -/
inductive JValue where
  | null : JValue
  | bool (b : Bool) : JValue
  | num (n : Int) : JValue
  | str (s : List Char) : JValue
  | arr (xs : List JValue) : JValue
  | obj (fields : List (List Char × JValue)) : JValue

/-- A Python state mapping: string keys to JSON-compatible values, in
insertion order. -/
abbrev StateList := List (List Char × JValue)

/-- Modelled from the spec: the app-scope prefix of `State` (imported from
`.state`, which is not among the sources); the spec writes the merged view as
keys of the form "app:"+k. -/
def State.APP_PREFIX : List Char := ['a', 'p', 'p', ':']

/-- Modelled from the spec: the user-scope prefix of `State`; the spec writes
the merged view as keys of the form "user:"+k. -/
def State.USER_PREFIX : List Char := ['u', 's', 'e', 'r', ':']

/-- Modelled from the spec: the ephemeral ("temp") prefix of `State`; the
spec's scenario uses the key "temp:scratch" for a dropped ephemeral entry. -/
def State.TEMP_PREFIX : List Char := ['t', 'e', 'm', 'p', ':']

/-- Python `str.removeprefix`: drops `p` from the front of `k` when it is a
prefix, otherwise returns `k` unchanged. -/
def removePrefixPy (p k : List Char) : List Char :=
  if p.isPrefixOf k then k.drop p.length else k

/-- The loop body of `_extract_state_delta`: iterate over the keys of the
input mapping in order; a key starting with the app prefix goes, stripped, to
the app delta; else a key starting with the user prefix goes, stripped, to
the user delta; else a key starting with the temp prefix is dropped; any
other key goes unchanged to the session delta. -/
def extractLoop : StateList → StateList × StateList × StateList
  | [] => ([], [], [])
  | (k, v) :: rest =>
    let r := extractLoop rest
    if State.APP_PREFIX.isPrefixOf k then
      ((removePrefixPy State.APP_PREFIX k, v) :: r.1, r.2.1, r.2.2)
    else if State.USER_PREFIX.isPrefixOf k then
      (r.1, (removePrefixPy State.USER_PREFIX k, v) :: r.2.1, r.2.2)
    else if State.TEMP_PREFIX.isPrefixOf k then
      r
    else
      (r.1, r.2.1, (k, v) :: r.2.2)

/-- `_extract_state_delta(state)`: the `if state:` guard makes both `None`
and an empty mapping yield three empty deltas; otherwise the per-key loop
above runs. -/
def _extract_state_delta (state : Option StateList) :
    StateList × StateList × StateList :=
  match state with
  | none => ([], [], [])
  | some l => extractLoop l

/-- Key test of rule 1 of the router: the key carries the app prefix. -/
def isAppKey (p : List Char × JValue) : Bool :=
  State.APP_PREFIX.isPrefixOf p.1

/-- Key test of rule 2: not rule 1, and the key carries the user prefix. -/
def isUserKey (p : List Char × JValue) : Bool :=
  !State.APP_PREFIX.isPrefixOf p.1 && State.USER_PREFIX.isPrefixOf p.1

/-- Key test of rule 3: not rules 1-2, and the key carries the temp prefix. -/
def isTempKey (p : List Char × JValue) : Bool :=
  !State.APP_PREFIX.isPrefixOf p.1 && !State.USER_PREFIX.isPrefixOf p.1 &&
    State.TEMP_PREFIX.isPrefixOf p.1

/-- Key test of rule 4: none of the three prefixes applies. -/
def isSessionKey (p : List Char × JValue) : Bool :=
  !State.APP_PREFIX.isPrefixOf p.1 && !State.USER_PREFIX.isPrefixOf p.1 &&
    !State.TEMP_PREFIX.isPrefixOf p.1

/-- Strip the app prefix from a routed pair. -/
def stripApp (p : List Char × JValue) : List Char × JValue :=
  (removePrefixPy State.APP_PREFIX p.1, p.2)

/-- Strip the user prefix from a routed pair. -/
def stripUser (p : List Char × JValue) : List Char × JValue :=
  (removePrefixPy State.USER_PREFIX p.1, p.2)

/-- Re-attach the app prefix to a routed pair. -/
def reApp (p : List Char × JValue) : List Char × JValue :=
  (State.APP_PREFIX ++ p.1, p.2)

/-- Re-attach the user prefix to a routed pair. -/
def reUser (p : List Char × JValue) : List Char × JValue :=
  (State.USER_PREFIX ++ p.1, p.2)

theorem extractLoop_characterization (l : StateList) :
    extractLoop l =
      ((l.filter isAppKey).map stripApp,
       (l.filter isUserKey).map stripUser,
       l.filter isSessionKey) := by
  induction l with
  | nil => rfl
  | cons p rest ih =>
    obtain ⟨k, v⟩ := p
    by_cases ha : State.APP_PREFIX.isPrefixOf k
    · simp [extractLoop, ih, List.filter, isAppKey, isUserKey, isSessionKey,
        ha, stripApp]
    · by_cases hu : State.USER_PREFIX.isPrefixOf k
      · simp [extractLoop, ih, List.filter, isAppKey, isUserKey, isSessionKey,
          ha, hu, stripUser]
      · by_cases ht : State.TEMP_PREFIX.isPrefixOf k
        · simp [extractLoop, ih, List.filter, isAppKey, isUserKey,
            isSessionKey, isTempKey, ha, hu, ht]
        · simp [extractLoop, ih, List.filter, isAppKey, isUserKey,
            isSessionKey, ha, hu, ht]

theorem app_prefixed_not_temp {k : List Char}
    (h : State.APP_PREFIX.isPrefixOf k = true) :
    State.TEMP_PREFIX.isPrefixOf k = false := by
  rcases List.isPrefixOf_iff_prefix.mp h with ⟨t, rfl⟩
  by_contra hb
  have hb' : State.TEMP_PREFIX.isPrefixOf (State.APP_PREFIX ++ t) = true := by
    simpa using hb
  rcases List.isPrefixOf_iff_prefix.mp hb' with ⟨t2, heq⟩
  simp [State.TEMP_PREFIX, State.APP_PREFIX] at heq

theorem user_prefixed_not_temp {k : List Char}
    (h : State.USER_PREFIX.isPrefixOf k = true) :
    State.TEMP_PREFIX.isPrefixOf k = false := by
  rcases List.isPrefixOf_iff_prefix.mp h with ⟨t, rfl⟩
  by_contra hb
  have hb' : State.TEMP_PREFIX.isPrefixOf (State.USER_PREFIX ++ t) = true := by
    simpa using hb
  rcases List.isPrefixOf_iff_prefix.mp hb' with ⟨t2, heq⟩
  simp [State.TEMP_PREFIX, State.USER_PREFIX] at heq

theorem reApp_stripApp {p : List Char × JValue} (h : isAppKey p = true) :
    reApp (stripApp p) = p := by
  obtain ⟨k, v⟩ := p
  simp only [isAppKey] at h
  rcases List.isPrefixOf_iff_prefix.mp h with ⟨t, rfl⟩
  simp [reApp, stripApp, removePrefixPy, h, List.drop_left]

theorem reUser_stripUser {p : List Char × JValue} (h : isUserKey p = true) :
    reUser (stripUser p) = p := by
  obtain ⟨k, v⟩ := p
  simp only [isUserKey, Bool.and_eq_true] at h
  rcases List.isPrefixOf_iff_prefix.mp h.2 with ⟨t, rfl⟩
  simp [reUser, stripUser, removePrefixPy, h.2, List.drop_left]

theorem filter_three_perm (l : StateList) :
    List.Perm
      (l.filter isAppKey ++ l.filter isUserKey ++ l.filter isSessionKey)
      (l.filter (fun p => !State.TEMP_PREFIX.isPrefixOf p.1)) := by
  induction l with
  | nil => simp
  | cons p rest ih =>
    by_cases ha : State.APP_PREFIX.isPrefixOf p.1
    · have hnt := app_prefixed_not_temp ha
      have hA : List.filter isAppKey (p :: rest) = p :: rest.filter isAppKey := by
        simp [isAppKey, List.filter_cons, ha]
      have hU : List.filter isUserKey (p :: rest) = rest.filter isUserKey := by
        simp [isUserKey, List.filter_cons, ha]
      have hS : List.filter isSessionKey (p :: rest) =
          rest.filter isSessionKey := by
        simp [isSessionKey, List.filter_cons, ha]
      have hT : List.filter (fun q => !State.TEMP_PREFIX.isPrefixOf q.1)
          (p :: rest) =
          p :: rest.filter (fun q => !State.TEMP_PREFIX.isPrefixOf q.1) := by
        simp [List.filter_cons, hnt]
      rw [hA, hU, hS, hT]
      exact ih.cons p
    · by_cases hu : State.USER_PREFIX.isPrefixOf p.1
      · have hnt := user_prefixed_not_temp hu
        have hA : List.filter isAppKey (p :: rest) = rest.filter isAppKey := by
          simp [isAppKey, List.filter_cons, ha]
        have hU : List.filter isUserKey (p :: rest) =
            p :: rest.filter isUserKey := by
          simp [isUserKey, List.filter_cons, ha, hu]
        have hS : List.filter isSessionKey (p :: rest) =
            rest.filter isSessionKey := by
          simp [isSessionKey, List.filter_cons, hu]
        have hT : List.filter (fun q => !State.TEMP_PREFIX.isPrefixOf q.1)
            (p :: rest) =
            p :: rest.filter (fun q => !State.TEMP_PREFIX.isPrefixOf q.1) := by
          simp [List.filter_cons, hnt]
        rw [hA, hU, hS, hT]
        have h1 : rest.filter isAppKey ++ p :: rest.filter isUserKey ++
            rest.filter isSessionKey =
            rest.filter isAppKey ++
              p :: (rest.filter isUserKey ++ rest.filter isSessionKey) := by
          simp [List.append_assoc]
        rw [h1]
        refine List.Perm.trans List.perm_middle ?_
        rw [← List.append_assoc]
        exact ih.cons p
      · by_cases ht : State.TEMP_PREFIX.isPrefixOf p.1
        · have hA : List.filter isAppKey (p :: rest) =
              rest.filter isAppKey := by
            simp [isAppKey, List.filter_cons, ha]
          have hU : List.filter isUserKey (p :: rest) =
              rest.filter isUserKey := by
            simp [isUserKey, List.filter_cons, hu]
          have hS : List.filter isSessionKey (p :: rest) =
              rest.filter isSessionKey := by
            simp [isSessionKey, List.filter_cons, ht]
          have hT : List.filter (fun q => !State.TEMP_PREFIX.isPrefixOf q.1)
              (p :: rest) =
              rest.filter (fun q => !State.TEMP_PREFIX.isPrefixOf q.1) := by
            simp [List.filter_cons, ht]
          rw [hA, hU, hS, hT]
          exact ih
        · have hA : List.filter isAppKey (p :: rest) =
              rest.filter isAppKey := by
            simp [isAppKey, List.filter_cons, ha]
          have hU : List.filter isUserKey (p :: rest) =
              rest.filter isUserKey := by
            simp [isUserKey, List.filter_cons, hu]
          have hS : List.filter isSessionKey (p :: rest) =
              p :: rest.filter isSessionKey := by
            simp [isSessionKey, List.filter_cons, ha, hu, ht]
          have hT : List.filter (fun q => !State.TEMP_PREFIX.isPrefixOf q.1)
              (p :: rest) =
              p :: rest.filter (fun q => !State.TEMP_PREFIX.isPrefixOf q.1) := by
            simp [List.filter_cons, ht]
          rw [hA, hU, hS, hT]
          exact List.Perm.trans List.perm_middle (ih.cons p)

theorem key_of_filter_map {P : List Char × JValue → Bool} {d : StateList}
    {k : List Char} (h : k ∈ (d.filter P).map Prod.fst) :
    ∃ p ∈ d, P p = true ∧ p.1 = k := by
  rcases List.mem_map.mp h with ⟨p, hp, hk⟩
  rcases List.mem_filter.mp hp with ⟨hmem, hP⟩
  exact ⟨p, hmem, hP, hk⟩

/-- Claim C8: the delta router `_extract_state_delta` evaluates each key with
first-match-wins semantics — app-prefixed keys go, stripped, to the app
delta; else user-prefixed keys go, stripped, to the user delta; else
temp-prefixed keys are dropped; all other keys go unchanged to the session
delta — and an empty or absent input yields three empty deltas.  The
first-match-wins rules are captured by the Boolean tests `isAppKey`,
`isUserKey` (which requires the app test to have failed) and `isSessionKey`
(which requires all three prefix tests to have failed); the router is a pure
Lean function, so it has no side effects. -/
theorem extract_state_delta_rules :
    (∀ d : StateList,
      _extract_state_delta (some d) =
        ((d.filter isAppKey).map stripApp,
         (d.filter isUserKey).map stripUser,
         d.filter isSessionKey)) ∧
    _extract_state_delta none = ([], [], []) ∧
    _extract_state_delta (some []) = ([], [], []) :=
  ⟨fun d => extractLoop_characterization d, rfl, rfl⟩

/-- Claim C2: the router assigns each key of the input delta to at most one
of the three returned deltas (after re-attaching the stripped prefixes, so
the keys are comparable) or drops it, and the app delta re-prefixed with the
app prefix, the user delta re-prefixed with the user prefix, and the session
delta unchanged together reconstruct the input minus its ephemeral
(temp-prefixed) keys, as a permutation of key/value pairs. -/
theorem extract_state_delta_partition (d : StateList) :
    (∀ k : List Char,
      (k ∈ ((_extract_state_delta (some d)).1.map reApp).map Prod.fst →
        k ∉ ((_extract_state_delta (some d)).2.1.map reUser).map Prod.fst ∧
        k ∉ ((_extract_state_delta (some d)).2.2).map Prod.fst) ∧
      (k ∈ ((_extract_state_delta (some d)).2.1.map reUser).map Prod.fst →
        k ∉ ((_extract_state_delta (some d)).2.2).map Prod.fst)) ∧
    List.Perm
      ((_extract_state_delta (some d)).1.map reApp ++
        (_extract_state_delta (some d)).2.1.map reUser ++
        (_extract_state_delta (some d)).2.2)
      (d.filter (fun p => !State.TEMP_PREFIX.isPrefixOf p.1)) := by
  have hE : _extract_state_delta (some d) =
      ((d.filter isAppKey).map stripApp,
       (d.filter isUserKey).map stripUser,
       d.filter isSessionKey) := extractLoop_characterization d
  have hApp : ((d.filter isAppKey).map stripApp).map reApp =
      d.filter isAppKey := by
    rw [List.map_map]
    have he : ∀ p ∈ d.filter isAppKey, (reApp ∘ stripApp) p = id p :=
      fun p hp => reApp_stripApp (List.mem_filter.mp hp).2
    rw [List.map_congr_left he, List.map_id]
  have hUser : ((d.filter isUserKey).map stripUser).map reUser =
      d.filter isUserKey := by
    rw [List.map_map]
    have he : ∀ p ∈ d.filter isUserKey, (reUser ∘ stripUser) p = id p :=
      fun p hp => reUser_stripUser (List.mem_filter.mp hp).2
    rw [List.map_congr_left he, List.map_id]
  rw [hE]
  dsimp only
  rw [hApp, hUser]
  constructor
  · intro k
    constructor
    · intro hk
      rcases key_of_filter_map hk with ⟨p, _, hP, hpk⟩
      have hak : State.APP_PREFIX.isPrefixOf k = true := by
        rw [← hpk]; exact hP
      constructor
      · intro hk2
        rcases key_of_filter_map hk2 with ⟨q, _, hQ, hqk⟩
        rw [isUserKey, hqk, hak] at hQ
        simp at hQ
      · intro hk2
        rcases key_of_filter_map hk2 with ⟨q, _, hQ, hqk⟩
        rw [isSessionKey, hqk, hak] at hQ
        simp at hQ
    · intro hk
      rcases key_of_filter_map hk with ⟨p, _, hP, hpk⟩
      rw [isUserKey, hpk] at hP
      have huk : State.USER_PREFIX.isPrefixOf k = true :=
        (Bool.and_eq_true .. |>.mp hP).2
      intro hk2
      rcases key_of_filter_map hk2 with ⟨q, _, hQ, hqk⟩
      rw [isSessionKey, hqk] at hQ
      rw [huk] at hQ
      simp at hQ
  · exact filter_three_perm d

/-- CPython `dict` assignment `m[k] = v`: replaces the binding in place when
the key exists (insertion order preserved), otherwise appends the new binding
at the end. -/
def dict_set : StateList → List Char → JValue → StateList
  | [], k, v => [(k, v)]
  | p :: rest, k, v =>
    if p.1 = k then (k, v) :: rest else p :: dict_set rest k v

/-- Python `dict` lookup `m[k]` (as an `Option`): the binding of the first
occurrence of the key. -/
def dict_lookup (m : StateList) (k : List Char) : Option JValue :=
  (m.find? (fun p => decide (p.1 = k))).map Prod.snd

/-- Python `dict.update(delta)`: assign every binding of `delta`, in order. -/
def dict_update (m : StateList) (delta : StateList) : StateList :=
  delta.foldl (fun acc p => dict_set acc p.1 p.2) m

/-- `copy.deepcopy` on a state mapping: in this pure embedding values are
immutable terms, so a deep copy is the identity; the aliasing the source
avoids by copying is not observable here. -/
def deepcopyState (m : StateList) : StateList := m

/-- `_merge_state(app_state, user_state, session_state)`: start from a deep
copy of session state, then assign every app binding under the app prefix
and every user binding under the user prefix. -/
def _merge_state (app_state user_state session_state : StateList) :
    StateList :=
  let merged := deepcopyState session_state
  let merged := app_state.foldl
    (fun acc p => dict_set acc (State.APP_PREFIX ++ p.1) p.2) merged
  user_state.foldl
    (fun acc p => dict_set acc (State.USER_PREFIX ++ p.1) p.2) merged

theorem dict_lookup_nil (k : List Char) : dict_lookup [] k = none := rfl

theorem dict_lookup_cons (p : List Char × JValue) (rest : StateList)
    (k : List Char) :
    dict_lookup (p :: rest) k =
      if p.1 = k then some p.2 else dict_lookup rest k := by
  by_cases h : p.1 = k
  · simp [dict_lookup, List.find?_cons_of_pos, h]
  · simp [dict_lookup, List.find?_cons_of_neg, h]

theorem dict_lookup_some_mem {m : StateList} {k : List Char} {w : JValue}
    (h : dict_lookup m k = some w) : k ∈ m.map Prod.fst := by
  induction m with
  | nil => simp [dict_lookup] at h
  | cons p rest ih =>
    rw [dict_lookup_cons] at h
    by_cases hpk : p.1 = k
    · exact List.mem_map.mpr ⟨p, List.mem_cons_self p rest, hpk⟩
    · rw [if_neg hpk] at h
      rw [List.map_cons]
      exact List.mem_cons_of_mem _ (ih h)

theorem dict_lookup_dict_set (m : StateList) (k : List Char) (v : JValue)
    (q : List Char) :
    dict_lookup (dict_set m k v) q =
      if q = k then some v else dict_lookup m q := by
  induction m with
  | nil =>
    by_cases hqk : q = k
    · subst hqk; simp [dict_set, dict_lookup_cons]
    · have hkq : ¬ k = q := fun h => hqk h.symm
      simp [dict_set, dict_lookup_cons, hkq, hqk, dict_lookup_nil]
  | cons p rest ih =>
    by_cases hpk : p.1 = k
    · rw [dict_set, if_pos hpk]
      by_cases hqk : q = k
      · simp [dict_lookup_cons, hqk]
      · rw [dict_lookup_cons, if_neg (fun h => hqk h.symm), if_neg hqk,
          dict_lookup_cons, hpk, if_neg (fun h => hqk h.symm)]
    · rw [dict_set, if_neg hpk]
      by_cases hpq : p.1 = q
      · have hqk : ¬ q = k := fun h => hpk (hpq.trans h)
        rw [dict_lookup_cons, if_pos hpq, if_neg hqk, dict_lookup_cons,
          if_pos hpq]
      · rw [dict_lookup_cons, if_neg hpq, ih, dict_lookup_cons, if_neg hpq]

theorem dict_lookup_foldl_prefixed (P : List Char) (m : StateList)
    (q : List Char) (hnd : (m.map Prod.fst).Nodup) :
    ∀ init : StateList,
      dict_lookup
        (m.foldl (fun acc p => dict_set acc (P ++ p.1) p.2) init) q =
      if P.isPrefixOf q = true ∧
          (dict_lookup m (q.drop P.length)).isSome = true then
        dict_lookup m (q.drop P.length)
      else dict_lookup init q := by
  induction m with
  | nil =>
    intro init
    rw [List.foldl_nil, if_neg]
    intro hc
    rw [dict_lookup_nil] at hc
    simp at hc
  | cons p rest ih =>
    intro init
    have hnd1 : p.1 ∉ List.map Prod.fst rest ∧
        (List.map Prod.fst rest).Nodup := by
      rw [List.map_cons, List.nodup_cons] at hnd
      exact hnd
    rw [List.foldl_cons, ih hnd1.2 (dict_set init (P ++ p.1) p.2)]
    by_cases hpre : P.isPrefixOf q
    · have hq' : P ++ q.drop P.length = q := by
        rcases List.isPrefixOf_iff_prefix.mp hpre with ⟨t, rfl⟩
        rw [List.drop_left]
      cases hrl : dict_lookup rest (q.drop P.length) with
      | some w =>
        have hmem : q.drop P.length ∈ rest.map Prod.fst :=
          dict_lookup_some_mem hrl
        have hne : ¬ p.1 = q.drop P.length := fun h => hnd1.1 (h ▸ hmem)
        have hcons : dict_lookup (p :: rest) (q.drop P.length) = some w := by
          rw [dict_lookup_cons, if_neg hne, hrl]
        simp [hrl, hcons, hpre]
      | none =>
        by_cases hqp : q = P ++ p.1
        · have hdrop : q.drop P.length = p.1 := by rw [hqp, List.drop_left]
          have hconsA : dict_lookup (p :: rest) p.1 = some p.2 := by
            rw [dict_lookup_cons, if_pos rfl]
          simp [hrl, hconsA, hpre, dict_lookup_dict_set, hqp, hdrop]
        · have hne2 : ¬ p.1 = q.drop P.length := fun h => hqp (by
            rw [← hq', ← h])
          have hcons : dict_lookup (p :: rest) (q.drop P.length) = none := by
            rw [dict_lookup_cons, if_neg hne2, hrl]
          simp [hrl, hcons, hpre, dict_lookup_dict_set, hqp]
    · have hqp : ¬ q = P ++ p.1 := fun h => hpre (by
        rw [h]
        exact List.isPrefixOf_iff_prefix.mpr (List.prefix_append P p.1))
      simp [hpre, hqp, dict_lookup_dict_set]

/-- Lookup through a scope prefix: defined only when the query key carries
the prefix, and then looks up the stripped key in the tier's mapping. -/
def prefLookup (P : List Char) (m : StateList) (q : List Char) :
    Option JValue :=
  if P.isPrefixOf q then dict_lookup m (q.drop P.length) else none

/-- First-defined choice between two optional lookups. -/
def firstSome (x y : Option JValue) : Option JValue :=
  match x with
  | some v => some v
  | none => y

/-- Claim C3: for mappings with the unique keys of Python dicts,
`_merge_state` returns exactly the session state extended with every app
binding under the "app:" prefix and every user binding under the "user:"
prefix (session-private keys unprefixed): every lookup in the merged view
resolves to the user tier (under its prefix), else to the app tier (under
its prefix), else to the session tier.  The merge starts from
`deepcopyState`, the identity in this embedding of immutable values, and is
a pure function, so repeated reads of unchanged tiers return equal merged
views. -/
theorem merge_state_characterization (a u s : StateList)
    (ha : (a.map Prod.fst).Nodup) (hu : (u.map Prod.fst).Nodup)
    (q : List Char) :
    dict_lookup (_merge_state a u s) q =
      firstSome (prefLookup State.USER_PREFIX u q)
        (firstSome (prefLookup State.APP_PREFIX a q) (dict_lookup s q)) := by
  simp only [_merge_state, deepcopyState]
  rw [dict_lookup_foldl_prefixed State.USER_PREFIX u q hu,
    dict_lookup_foldl_prefixed State.APP_PREFIX a q ha]
  cases hu_l : dict_lookup u (q.drop State.USER_PREFIX.length) <;>
    cases ha_l : dict_lookup a (q.drop State.APP_PREFIX.length) <;>
    by_cases hU : State.USER_PREFIX.isPrefixOf q <;>
    by_cases hA : State.APP_PREFIX.isPrefixOf q <;>
    simp [prefLookup, firstSome, hU, hA, hu_l, ha_l]

/-- Witness for C3: on app state `{t: 1}`, user state `{l: 2}` and session
state `{x: 3}`, the merged view resolves the key "app:t" to the app tier's
value. -/
theorem merge_state_characterization_witness :
    dict_lookup
      (_merge_state [(['t'], JValue.num 1)] [(['l'], JValue.num 2)]
        [(['x'], JValue.num 3)])
      ['a', 'p', 'p', ':', 't'] = some (JValue.num 1) :=
  (merge_state_characterization [(['t'], JValue.num 1)]
    [(['l'], JValue.num 2)] [(['x'], JValue.num 3)]
    (by decide) (by decide) ['a', 'p', 'p', ':', 't']).trans (by rfl)

/-- The decimal digit character for a digit value 0-9. -/
def digitChar : Nat → Char
  | 0 => '0'
  | 1 => '1'
  | 2 => '2'
  | 3 => '3'
  | 4 => '4'
  | 5 => '5'
  | 6 => '6'
  | 7 => '7'
  | 8 => '8'
  | _ => '9'

/-- The numeric value of a digit character. -/
def digitVal (c : Char) : Nat := c.toNat - 48

/-- ASCII decimal digit test. -/
def isDigitCh (c : Char) : Bool :=
  decide (48 ≤ c.toNat) && decide (c.toNat ≤ 57)

/-- Decimal digits of `n`, most significant first, prepended to `acc`. -/
def natCharsAux (n : Nat) (acc : List Char) : List Char :=
  if h : n = 0 then acc
  else natCharsAux (n / 10) (digitChar (n % 10) :: acc)
termination_by n
decreasing_by exact Nat.div_lt_self (Nat.pos_of_ne_zero h) (by omega)

/-- Decimal representation of a natural number, as Python prints it. -/
def natChars (n : Nat) : List Char :=
  if n = 0 then ['0'] else natCharsAux n []

/-- Decimal representation of an integer, as Python prints it. -/
def intChars (n : Int) : List Char :=
  if n < 0 then '-' :: natChars n.natAbs else natChars n.toNat

/-- Number of decimal digits produced by `natCharsAux` (0 for 0). -/
def digitCount (n : Nat) : Nat :=
  if h : n = 0 then 0 else digitCount (n / 10) + 1
termination_by n
decreasing_by exact Nat.div_lt_self (Nat.pos_of_ne_zero h) (by omega)

/-- Accumulate the value of a digit string left to right. -/
def foldDigits (a : Nat) (l : List Char) : Nat :=
  l.foldl (fun acc c => acc * 10 + digitVal c) a

theorem digitVal_digitChar {d : Nat} (h : d < 10) :
    digitVal (digitChar d) = d := by
  interval_cases d <;> rfl

theorem isDigitCh_digitChar {d : Nat} (h : d < 10) :
    isDigitCh (digitChar d) = true := by
  interval_cases d <;> rfl

theorem natCharsAux_digits (n : Nat) :
    ∀ acc, (∀ c ∈ acc, isDigitCh c = true) →
      ∀ c ∈ natCharsAux n acc, isDigitCh c = true := by
  induction n using Nat.strong_induction_on with
  | _ n ih =>
    intro acc hacc c hc
    by_cases h : n = 0
    · rw [natCharsAux, dif_pos h] at hc
      exact hacc c hc
    · rw [natCharsAux, dif_neg h] at hc
      refine ih (n / 10) (Nat.div_lt_self (Nat.pos_of_ne_zero h) (by omega))
        (digitChar (n % 10) :: acc) ?_ c hc
      intro c' hc'
      rcases List.mem_cons.mp hc' with hc' | hc'
      · rw [hc']
        exact isDigitCh_digitChar (Nat.mod_lt n (by omega))
      · exact hacc c' hc'

theorem natCharsAux_ne_nil (n : Nat) (hn : n ≠ 0) :
    ∀ acc, natCharsAux n acc ≠ [] := by
  induction n using Nat.strong_induction_on with
  | _ n ih =>
    intro acc
    rw [natCharsAux, dif_neg hn]
    by_cases h10 : n / 10 = 0
    · rw [natCharsAux, dif_pos h10]
      exact List.cons_ne_nil _ _
    · exact ih (n / 10) (Nat.div_lt_self (Nat.pos_of_ne_zero hn) (by omega))
        h10 _

theorem natChars_ne_nil (n : Nat) : natChars n ≠ [] := by
  by_cases h : n = 0
  · rw [natChars, if_pos h]
    exact List.cons_ne_nil _ _
  · rw [natChars, if_neg h]
    exact natCharsAux_ne_nil n h []

theorem natChars_digits (n : Nat) : ∀ c ∈ natChars n, isDigitCh c = true := by
  by_cases h : n = 0
  · rw [natChars, if_pos h]
    intro c hc
    rcases List.mem_singleton.mp hc with rfl
    rfl
  · rw [natChars, if_neg h]
    exact natCharsAux_digits n [] (by intro c hc; simp at hc)

theorem foldDigits_natCharsAux (n : Nat) :
    ∀ acc a, foldDigits a (natCharsAux n acc) =
      foldDigits (a * 10 ^ digitCount n + n) acc := by
  induction n using Nat.strong_induction_on with
  | _ n ih =>
    intro acc a
    by_cases h : n = 0
    · rw [natCharsAux, dif_pos h, digitCount, dif_pos h, h]
      simp
    · rw [natCharsAux, dif_neg h, digitCount, dif_neg h,
        ih (n / 10) (Nat.div_lt_self (Nat.pos_of_ne_zero h) (by omega))]
      have hstep : foldDigits (a * 10 ^ digitCount (n / 10) + n / 10)
          (digitChar (n % 10) :: acc) =
          foldDigits ((a * 10 ^ digitCount (n / 10) + n / 10) * 10 +
            digitVal (digitChar (n % 10))) acc := rfl
      rw [hstep, digitVal_digitChar (Nat.mod_lt n (by omega))]
      congr 1
      have hdm : n / 10 * 10 + n % 10 = n := by omega
      calc (a * 10 ^ digitCount (n / 10) + n / 10) * 10 + n % 10
          = a * (10 ^ digitCount (n / 10) * 10) +
              (n / 10 * 10 + n % 10) := by ring
        _ = a * 10 ^ (digitCount (n / 10) + 1) + n := by
              rw [hdm, pow_succ]

theorem foldDigits_natChars (n : Nat) : foldDigits 0 (natChars n) = n := by
  by_cases h : n = 0
  · rw [natChars, if_pos h, h]
    rfl
  · rw [natChars, if_neg h, foldDigits_natCharsAux n [] 0]
    simp [foldDigits]

/-- The escaping applied by `json.dumps` to the two characters that must be
escaped in every JSON string, the quote and the backslash.  (The control and
non-ASCII escapes that `json.dumps` also emits are not modelled; the values
handled here round-trip identically either way.) -/
def escapeChar (c : Char) : List Char :=
  if c = '"' then ['\\', '"']
  else if c = '\\' then ['\\', '\\']
  else [c]

/-- Escape a whole string body. -/
def escapeStr (s : List Char) : List Char := (s.map escapeChar).flatten

/-- The opening curly brace character. -/
def lbrace : Char := Char.ofNat 123

/-- The closing curly brace character. -/
def rbrace : Char := Char.ofNat 125

/-- The keyword text of the JSON null literal. -/
def litNull : List Char := ['n', 'u', 'l', 'l']

/-- The keyword text of the JSON true literal. -/
def litTrue : List Char := ['t', 'r', 'u', 'e']

/-- The keyword text of the JSON false literal. -/
def litFalse : List Char := ['f', 'a', 'l', 's', 'e']

mutual

/-- `json.dumps` with its default separators (", " between items, ": "
between a key and its value): the JSON text of a value, as a character
list. -/
def dumps : JValue → List Char
  | .null => litNull
  | .bool true => litTrue
  | .bool false => litFalse
  | .num n => intChars n
  | .str s => '"' :: (escapeStr s ++ ['"'])
  | .arr xs => '[' :: (dumpsElems xs ++ [']'])
  | .obj fs => lbrace :: (dumpsFields fs ++ [rbrace])

/-- The comma-separated element list of a dumped JSON array. -/
def dumpsElems : List JValue → List Char
  | [] => []
  | [x] => dumps x
  | x :: y :: xs => dumps x ++ (',' :: ' ' :: dumpsElems (y :: xs))

/-- The comma-separated member list of a dumped JSON object. -/
def dumpsFields : List (List Char × JValue) → List Char
  | [] => []
  | [(k, v)] => '"' :: (escapeStr k ++ ('"' :: ':' :: ' ' :: dumps v))
  | (k, v) :: f :: fs =>
    '"' :: (escapeStr k ++
      ('"' :: ':' :: ' ' :: (dumps v ++ (',' :: ' ' :: dumpsFields (f :: fs)))))

end

/-- Drop leading spaces, as the JSON reader does between tokens. -/
def skipSpaces : List Char → List Char
  | [] => []
  | c :: rest => if c = ' ' then skipSpaces rest else c :: rest

/-- Read a JSON string body up to its closing quote, undoing the escapes of
`escapeChar` (an escaped quote or backslash denotes itself). -/
def parseStrBody : List Char → Option (List Char × List Char)
  | [] => none
  | c :: rest =>
    if c = '"' then some ([], rest)
    else if c = '\\' then
      match rest with
      | [] => none
      | e :: rest2 =>
        match parseStrBody rest2 with
        | some (s, r) => some (e :: s, r)
        | none => none
    else
      match parseStrBody rest with
      | some (s, r) => some (c :: s, r)
      | none => none

/-- Read a maximal nonempty run of decimal digits as a natural number. -/
def parseNatNum (input : List Char) : Option (Nat × List Char) :=
  let ds := input.takeWhile isDigitCh
  if ds.isEmpty then none
  else some (foldDigits 0 ds, input.dropWhile isDigitCh)

mutual

/-- Fuel-bounded JSON reader for one value, inverting `dumps`. -/
def parseVal : Nat → List Char → Option (JValue × List Char)
  | 0, _ => none
  | _ + 1, [] => none
  | f + 1, c :: rest =>
    if c = 'n' then
      match rest with
      | 'u' :: 'l' :: 'l' :: r => some (.null, r)
      | _ => none
    else if c = 't' then
      match rest with
      | 'r' :: 'u' :: 'e' :: r => some (.bool true, r)
      | _ => none
    else if c = 'f' then
      match rest with
      | 'a' :: 'l' :: 's' :: 'e' :: r => some (.bool false, r)
      | _ => none
    else if c = '"' then
      match parseStrBody rest with
      | some (s, r) => some (.str s, r)
      | none => none
    else if c = '-' then
      match parseNatNum rest with
      | some (n, r) => some (.num (-(n : Int)), r)
      | none => none
    else if isDigitCh c then
      match parseNatNum (c :: rest) with
      | some (n, r) => some (.num ((n : Nat) : Int), r)
      | none => none
    else if c = '[' then
      match parseElems f rest with
      | some (xs, r) => some (.arr xs, r)
      | none => none
    else if c = lbrace then
      match parseFields f rest with
      | some (fs, r) => some (.obj fs, r)
      | none => none
    else none

/-- Fuel-bounded reader for the tail of a JSON array (after the opening
bracket): either an immediate close or one-or-more comma-separated
values. -/
def parseElems : Nat → List Char → Option (List JValue × List Char)
  | 0, _ => none
  | _ + 1, [] => none
  | f + 1, c :: rest =>
    if c = ']' then some ([], rest)
    else
      match parseVal f (c :: rest) with
      | none => none
      | some (x, r1) =>
        match r1 with
        | [] => none
        | c1 :: r2 =>
          if c1 = ']' then some ([x], r2)
          else if c1 = ',' then
            match parseElems f (skipSpaces r2) with
            | some (xs, r3) => some (x :: xs, r3)
            | none => none
          else none

/-- Fuel-bounded reader for the tail of a JSON object (after the opening
brace). -/
def parseFields :
    Nat → List Char → Option (List (List Char × JValue) × List Char)
  | 0, _ => none
  | _ + 1, [] => none
  | f + 1, c :: rest =>
    if c = rbrace then some ([], rest)
    else if c = '"' then
      match parseStrBody rest with
      | none => none
      | some (k, r1) =>
        match r1 with
        | [] => none
        | c2 :: r2 =>
          if c2 = ':' then
            match parseVal f (skipSpaces r2) with
            | none => none
            | some (v, r3) =>
              match r3 with
              | [] => none
              | c3 :: r4 =>
                if c3 = rbrace then some ([(k, v)], r4)
                else if c3 = ',' then
                  match parseFields f (skipSpaces r4) with
                  | some (fs, r5) => some ((k, v) :: fs, r5)
                  | none => none
                else none
          else none
    else none

end

/-- `json.loads`: parse a complete JSON text; any unconsumed tail or parse
failure is a decode error (`None` result). -/
def loads (t : List Char) : Option JValue :=
  match parseVal (2 * t.length + 3) t with
  | some (v, []) => some v
  | _ => none

/-- The continuation after a dumped number never starts with a digit, so the
greedy digit scan stops exactly at the number's end. -/
def noDigitHead (l : List Char) : Prop :=
  ∀ c, l.head? = some c → isDigitCh c = false

theorem takeWhile_append_full {p : Char → Bool} {l r : List Char}
    (hl : ∀ c ∈ l, p c = true)
    (hr : ∀ c, r.head? = some c → p c = false) :
    (l ++ r).takeWhile p = l := by
  induction l with
  | nil =>
    cases r with
    | nil => rfl
    | cons c r' => simp [List.takeWhile_cons, hr c rfl]
  | cons c l' ih =>
    have hc := hl c (List.mem_cons_self c l')
    simp [List.takeWhile_cons, hc,
      ih (fun c' hc' => hl c' (List.mem_cons_of_mem _ hc'))]

theorem dropWhile_append_full {p : Char → Bool} {l r : List Char}
    (hl : ∀ c ∈ l, p c = true)
    (hr : ∀ c, r.head? = some c → p c = false) :
    (l ++ r).dropWhile p = r := by
  induction l with
  | nil =>
    cases r with
    | nil => rfl
    | cons c r' => simp [List.dropWhile_cons, hr c rfl]
  | cons c l' ih =>
    have hc := hl c (List.mem_cons_self c l')
    simp [List.dropWhile_cons, hc,
      ih (fun c' hc' => hl c' (List.mem_cons_of_mem _ hc'))]

theorem parseNatNum_natChars (n : Nat) (rest : List Char)
    (hrest : noDigitHead rest) :
    parseNatNum (natChars n ++ rest) = some (n, rest) := by
  have htake : (natChars n ++ rest).takeWhile isDigitCh = natChars n :=
    takeWhile_append_full (natChars_digits n) hrest
  have hdrop : (natChars n ++ rest).dropWhile isDigitCh = rest :=
    dropWhile_append_full (natChars_digits n) hrest
  have hne : (natChars n).isEmpty ≠ true := by
    cases h : natChars n with
    | nil => exact absurd h (natChars_ne_nil n)
    | cons c t => simp [List.isEmpty]
  simp only [parseNatNum, htake, hdrop]
  rw [if_neg hne, foldDigits_natChars]

theorem parseStrBody_escape (s : List Char) (rest : List Char) :
    parseStrBody (escapeStr s ++ '"' :: rest) = some (s, rest) := by
  induction s with
  | nil =>
    show parseStrBody (escapeStr [] ++ '"' :: rest) = some ([], rest)
    rw [show escapeStr [] = [] from rfl, List.nil_append,
      parseStrBody.eq_def]
    simp
  | cons c cs ih =>
    have hes : escapeStr (c :: cs) = escapeChar c ++ escapeStr cs := by
      simp [escapeStr]
    rw [hes, List.append_assoc]
    by_cases hq : c = '"'
    · subst hq
      rw [show escapeChar '"' = ['\\', '"'] from rfl, List.cons_append,
        List.cons_append, List.nil_append, parseStrBody.eq_def]
      simp [ih]
    · by_cases hbsl : c = '\\'
      · subst hbsl
        rw [show escapeChar '\\' = ['\\', '\\'] from rfl, List.cons_append,
          List.cons_append, List.nil_append, parseStrBody.eq_def]
        simp [ih]
      · rw [show escapeChar c = [c] from if_neg hq |>.trans (if_neg hbsl),
          List.cons_append, List.nil_append, parseStrBody.eq_def]
        dsimp only
        rw [if_neg hq, if_neg hbsl, ih]

theorem digit_ne_char {c d : Char} (hc : isDigitCh c = true)
    (hd : isDigitCh d = false) : c ≠ d := by
  intro h
  rw [h, hd] at hc
  exact Bool.noConfusion hc

theorem dumps_cons (v : JValue) :
    ∃ c t, dumps v = c :: t ∧ c ≠ ' ' ∧ c ≠ ']' := by
  cases v with
  | null =>
    exact ⟨'n', ['u', 'l', 'l'], by simp [dumps, litNull], by decide,
      by decide⟩
  | bool b =>
    cases b with
    | true =>
      exact ⟨'t', ['r', 'u', 'e'], by simp [dumps, litTrue], by decide,
        by decide⟩
    | false =>
      exact ⟨'f', ['a', 'l', 's', 'e'], by simp [dumps, litFalse], by decide,
        by decide⟩
  | num n =>
    have hd : dumps (.num n) = intChars n := by simp [dumps]
    by_cases hn : n < 0
    · exact ⟨'-', natChars n.natAbs, by rw [hd, intChars, if_pos hn],
        by decide, by decide⟩
    · cases h : natChars n.toNat with
      | nil => exact absurd h (natChars_ne_nil n.toNat)
      | cons c t =>
        have hdig : isDigitCh c = true :=
          natChars_digits n.toNat c (h ▸ List.mem_cons_self c t)
        exact ⟨c, t, by rw [hd, intChars, if_neg hn, h],
          digit_ne_char hdig (by decide), digit_ne_char hdig (by decide)⟩
  | str s =>
    exact ⟨'"', escapeStr s ++ ['"'], by simp [dumps], by decide, by decide⟩
  | arr xs =>
    exact ⟨'[', dumpsElems xs ++ [']'], by simp [dumps], by decide, by decide⟩
  | obj fs =>
    exact ⟨lbrace, dumpsFields fs ++ [rbrace], by simp [dumps], by decide,
      by decide⟩

theorem dumpsElems_cons (y : JValue) (ys : List JValue) :
    ∃ c t, dumpsElems (y :: ys) = c :: t ∧ c ≠ ' ' ∧ c ≠ ']' := by
  obtain ⟨c, t, hct, h1, h2⟩ := dumps_cons y
  cases ys with
  | nil => exact ⟨c, t, by simp [dumpsElems, hct], h1, h2⟩
  | cons z zs =>
    exact ⟨c, t ++ (',' :: ' ' :: dumpsElems (z :: zs)), by
      simp [dumpsElems, hct], h1, h2⟩

theorem dumpsFields_cons (k : List Char) (v : JValue)
    (fs : List (List Char × JValue)) :
    ∃ t, dumpsFields ((k, v) :: fs) = '"' :: t := by
  cases fs with
  | nil =>
    exact ⟨escapeStr k ++ ('"' :: ':' :: ' ' :: dumps v), by
      simp [dumpsFields]⟩
  | cons f fs' =>
    exact ⟨escapeStr k ++
      ('"' :: ':' :: ' ' :: (dumps v ++ (',' :: ' ' :: dumpsFields (f :: fs')))),
      by simp [dumpsFields]⟩

theorem skipSpaces_no_space {l : List Char}
    (h : ∀ c, l.head? = some c → c ≠ ' ') : skipSpaces l = l := by
  cases l with
  | nil => rfl
  | cons c rest => simp [skipSpaces, h c rfl]

theorem parse_dumps_main (fuel : Nat) :
    (∀ (v : JValue) (rest : List Char), noDigitHead rest →
      2 * (dumps v ++ rest).length + 1 ≤ fuel →
      parseVal fuel (dumps v ++ rest) = some (v, rest)) ∧
    (∀ (xs : List JValue) (rest : List Char),
      2 * (dumpsElems xs ++ ']' :: rest).length + 2 ≤ fuel →
      parseElems fuel (dumpsElems xs ++ ']' :: rest) = some (xs, rest)) ∧
    (∀ (fs : List (List Char × JValue)) (rest : List Char),
      2 * (dumpsFields fs ++ rbrace :: rest).length + 2 ≤ fuel →
      parseFields fuel (dumpsFields fs ++ rbrace :: rest) = some (fs, rest)) := by
  induction fuel using Nat.strong_induction_on with
  | _ fuel ih =>
  cases fuel with
  | zero =>
    refine ⟨fun v rest _ hb => ?_, fun xs rest hb => ?_, fun fs rest hb => ?_⟩
      <;> omega
  | succ g =>
    have IHv := (ih g (Nat.lt_succ_self g)).1
    have IHe := (ih g (Nat.lt_succ_self g)).2.1
    have IHf := (ih g (Nat.lt_succ_self g)).2.2
    refine ⟨?_, ?_, ?_⟩
    · -- parseVal inverts dumps
      intro v rest hrest hb
      cases v with
      | null =>
        rw [show dumps JValue.null ++ rest = 'n' :: 'u' :: 'l' :: 'l' :: rest
          from by simp [dumps, litNull], parseVal.eq_def]
        simp
      | bool b =>
        cases b with
        | true =>
          rw [show dumps (JValue.bool true) ++ rest =
            't' :: 'r' :: 'u' :: 'e' :: rest from by simp [dumps, litTrue],
            parseVal.eq_def]
          simp
        | false =>
          rw [show dumps (JValue.bool false) ++ rest =
            'f' :: 'a' :: 'l' :: 's' :: 'e' :: rest from by
              simp [dumps, litFalse],
            parseVal.eq_def]
          simp
      | num n =>
        have hd : dumps (JValue.num n) = intChars n := by simp [dumps]
        by_cases hn : n < 0
        · have hi : intChars n = '-' :: natChars n.natAbs := by
            rw [intChars, if_pos hn]
          rw [hd, hi, List.cons_append, parseVal.eq_def]
          dsimp only
          rw [if_neg (by decide : ¬ ('-' : Char) = 'n'),
            if_neg (by decide : ¬ ('-' : Char) = 't'),
            if_neg (by decide : ¬ ('-' : Char) = 'f'),
            if_neg (by decide : ¬ ('-' : Char) = '"'),
            if_pos rfl, parseNatNum_natChars n.natAbs rest hrest]
          dsimp only
          have hv : -((n.natAbs : Nat) : Int) = n := by omega
          rw [hv]
        · have hi : intChars n = natChars n.toNat := by
            rw [intChars, if_neg hn]
          cases h : natChars n.toNat with
          | nil => exact absurd h (natChars_ne_nil _)
          | cons c t =>
            have hdig : isDigitCh c = true :=
              natChars_digits _ c (h ▸ List.mem_cons_self c t)
            rw [hd, hi, h, List.cons_append, parseVal.eq_def]
            dsimp only
            rw [if_neg (digit_ne_char hdig (by decide)),
              if_neg (digit_ne_char hdig (by decide)),
              if_neg (digit_ne_char hdig (by decide)),
              if_neg (digit_ne_char hdig (by decide)),
              if_neg (digit_ne_char hdig (by decide)),
              if_pos hdig,
              show c :: (t ++ rest) = natChars n.toNat ++ rest from by
                rw [h, List.cons_append],
              parseNatNum_natChars n.toNat rest hrest]
            dsimp only
            have hv : ((n.toNat : Nat) : Int) = n := by omega
            rw [hv]
      | str s =>
        rw [show dumps (JValue.str s) ++ rest =
          '"' :: (escapeStr s ++ '"' :: rest) from by simp [dumps],
          parseVal.eq_def]
        dsimp only
        rw [if_neg (by decide : ¬ ('"' : Char) = 'n'),
          if_neg (by decide : ¬ ('"' : Char) = 't'),
          if_neg (by decide : ¬ ('"' : Char) = 'f'),
          if_pos rfl, parseStrBody_escape]
      | arr xs =>
        rw [show dumps (JValue.arr xs) ++ rest =
          '[' :: (dumpsElems xs ++ ']' :: rest) from by simp [dumps],
          parseVal.eq_def]
        dsimp only
        rw [if_neg (by decide : ¬ ('[' : Char) = 'n'),
          if_neg (by decide : ¬ ('[' : Char) = 't'),
          if_neg (by decide : ¬ ('[' : Char) = 'f'),
          if_neg (by decide : ¬ ('[' : Char) = '"'),
          if_neg (by decide : ¬ ('[' : Char) = '-'),
          if_neg (by decide : ¬ isDigitCh '[' = true),
          if_pos rfl]
        rw [IHe xs rest (by
          simp only [dumps, List.length_append, List.length_cons] at hb ⊢
          omega)]
      | obj fs =>
        rw [show dumps (JValue.obj fs) ++ rest =
          lbrace :: (dumpsFields fs ++ rbrace :: rest) from by simp [dumps],
          parseVal.eq_def]
        dsimp only
        rw [if_neg (by decide : ¬ lbrace = 'n'),
          if_neg (by decide : ¬ lbrace = 't'),
          if_neg (by decide : ¬ lbrace = 'f'),
          if_neg (by decide : ¬ lbrace = '"'),
          if_neg (by decide : ¬ lbrace = '-'),
          if_neg (by decide : ¬ isDigitCh lbrace = true),
          if_neg (by decide : ¬ lbrace = '['),
          if_pos rfl]
        rw [IHf fs rest (by
          simp only [dumps, List.length_append, List.length_cons] at hb ⊢
          omega)]
    · -- parseElems inverts dumpsElems
      intro xs rest hb
      cases xs with
      | nil =>
        rw [show dumpsElems [] ++ ']' :: rest = ']' :: rest from by
          simp [dumpsElems], parseElems.eq_def]
        dsimp only
        rw [if_pos rfl]
      | cons x xs' =>
        obtain ⟨c, t, hct, hcs, hcb⟩ := dumps_cons x
        cases xs' with
        | nil =>
          rw [show dumpsElems [x] ++ ']' :: rest = c :: (t ++ ']' :: rest)
            from by simp [dumpsElems, hct], parseElems.eq_def]
          dsimp only
          rw [if_neg hcb]
          rw [show c :: (t ++ ']' :: rest) = dumps x ++ ']' :: rest from by
            rw [hct, List.cons_append]]
          rw [IHv x (']' :: rest)
            (by intro c' hc'; simp at hc'; subst hc'; decide)
            (by
              simp only [dumpsElems, List.length_append, List.length_cons]
                at hb ⊢
              omega)]
          dsimp only
          rw [if_pos rfl]
        | cons y ys =>
          rw [show dumpsElems (x :: y :: ys) ++ ']' :: rest =
            c :: (t ++ (',' :: ' ' :: (dumpsElems (y :: ys) ++ ']' :: rest)))
            from by simp [dumpsElems, hct], parseElems.eq_def]
          dsimp only
          rw [if_neg hcb]
          rw [show c :: (t ++ (',' :: ' ' ::
              (dumpsElems (y :: ys) ++ ']' :: rest))) =
            dumps x ++ (',' :: ' ' ::
              (dumpsElems (y :: ys) ++ ']' :: rest)) from by
            rw [hct, List.cons_append]]
          rw [IHv x (',' :: ' ' :: (dumpsElems (y :: ys) ++ ']' :: rest))
            (by intro c' hc'; simp at hc'; subst hc'; decide)
            (by
              simp only [dumpsElems, List.length_append, List.length_cons]
                at hb ⊢
              omega)]
          dsimp only
          rw [if_neg (by decide : ¬ (',' : Char) = ']'), if_pos rfl]
          have hskip : skipSpaces (' ' ::
              (dumpsElems (y :: ys) ++ ']' :: rest)) =
              dumpsElems (y :: ys) ++ ']' :: rest := by
            rw [skipSpaces.eq_def]
            dsimp only
            rw [if_pos rfl]
            obtain ⟨c2, t2, hct2, hcs2, _⟩ := dumpsElems_cons y ys
            refine skipSpaces_no_space ?_
            intro c' hc'
            rw [hct2, List.cons_append] at hc'
            simp at hc'
            subst hc'
            exact hcs2
          rw [hskip]
          rw [IHe (y :: ys) rest (by
            simp only [dumpsElems, List.length_append, List.length_cons]
              at hb ⊢
            omega)]
    · -- parseFields inverts dumpsFields
      intro fs rest hb
      cases fs with
      | nil =>
        rw [show dumpsFields [] ++ rbrace :: rest = rbrace :: rest from by
          simp [dumpsFields], parseFields.eq_def]
        dsimp only
        rw [if_pos rfl]
      | cons kv fs' =>
        obtain ⟨k, v⟩ := kv
        cases fs' with
        | nil =>
          rw [show dumpsFields [(k, v)] ++ rbrace :: rest =
            '"' :: (escapeStr k ++
              ('"' :: ':' :: ' ' :: (dumps v ++ rbrace :: rest)))
            from by simp [dumpsFields], parseFields.eq_def]
          dsimp only
          rw [if_neg (by decide : ¬ ('"' : Char) = rbrace), if_pos rfl]
          rw [show escapeStr k ++
              ('"' :: ':' :: ' ' :: (dumps v ++ rbrace :: rest)) =
            escapeStr k ++
              '"' :: (':' :: ' ' :: (dumps v ++ rbrace :: rest)) from rfl]
          rw [parseStrBody_escape]
          dsimp only
          rw [if_pos rfl]
          have hskip : skipSpaces (' ' :: (dumps v ++ rbrace :: rest)) =
              dumps v ++ rbrace :: rest := by
            rw [skipSpaces.eq_def]
            dsimp only
            rw [if_pos rfl]
            obtain ⟨cv, tv, hctv, hcsv, _⟩ := dumps_cons v
            refine skipSpaces_no_space ?_
            intro c' hc'
            rw [hctv, List.cons_append] at hc'
            simp at hc'
            subst hc'
            exact hcsv
          rw [hskip]
          rw [IHv v (rbrace :: rest)
            (by intro c' hc'; simp at hc'; subst hc'; decide)
            (by
              simp only [dumpsFields, List.length_append, List.length_cons]
                at hb ⊢
              omega)]
          dsimp only
          rw [if_pos rfl]
        | cons f2 fs2 =>
          rw [show dumpsFields ((k, v) :: f2 :: fs2) ++ rbrace :: rest =
            '"' :: (escapeStr k ++
              ('"' :: ':' :: ' ' :: (dumps v ++
                (',' :: ' ' :: (dumpsFields (f2 :: fs2) ++ rbrace :: rest)))))
            from by simp [dumpsFields], parseFields.eq_def]
          dsimp only
          rw [if_neg (by decide : ¬ ('"' : Char) = rbrace), if_pos rfl]
          rw [show escapeStr k ++
              ('"' :: ':' :: ' ' :: (dumps v ++
                (',' :: ' ' :: (dumpsFields (f2 :: fs2) ++ rbrace :: rest)))) =
            escapeStr k ++ '"' :: (':' :: ' ' :: (dumps v ++
              (',' :: ' ' :: (dumpsFields (f2 :: fs2) ++ rbrace :: rest))))
            from rfl]
          rw [parseStrBody_escape]
          dsimp only
          rw [if_pos rfl]
          have hskip : skipSpaces (' ' :: (dumps v ++
              (',' :: ' ' :: (dumpsFields (f2 :: fs2) ++ rbrace :: rest)))) =
              dumps v ++ (',' :: ' ' ::
                (dumpsFields (f2 :: fs2) ++ rbrace :: rest)) := by
            rw [skipSpaces.eq_def]
            dsimp only
            rw [if_pos rfl]
            obtain ⟨cv, tv, hctv, hcsv, _⟩ := dumps_cons v
            refine skipSpaces_no_space ?_
            intro c' hc'
            rw [hctv, List.cons_append] at hc'
            simp at hc'
            subst hc'
            exact hcsv
          rw [hskip]
          rw [IHv v
            (',' :: ' ' :: (dumpsFields (f2 :: fs2) ++ rbrace :: rest))
            (by intro c' hc'; simp at hc'; subst hc'; decide)
            (by
              simp only [dumpsFields, List.length_append, List.length_cons]
                at hb ⊢
              omega)]
          dsimp only
          rw [if_neg (by decide : ¬ (',' : Char) = rbrace), if_pos rfl]
          have hskip2 : skipSpaces (' ' ::
              (dumpsFields (f2 :: fs2) ++ rbrace :: rest)) =
              dumpsFields (f2 :: fs2) ++ rbrace :: rest := by
            rw [skipSpaces.eq_def]
            dsimp only
            rw [if_pos rfl]
            obtain ⟨k2, v2⟩ := f2
            obtain ⟨t2, hct2⟩ := dumpsFields_cons k2 v2 fs2
            refine skipSpaces_no_space ?_
            intro c' hc'
            rw [hct2, List.cons_append] at hc'
            simp at hc'
            subst hc'
            decide
          rw [hskip2]
          rw [IHf (f2 :: fs2) rest (by
            simp only [dumpsFields, List.length_append, List.length_cons]
              at hb ⊢
            omega)]

theorem loads_dumps (v : JValue) : loads (dumps v) = some v := by
  have h := (parse_dumps_main (2 * (dumps v).length + 3)).1 v []
    (by intro c hc; simp at hc)
    (by simp only [List.append_nil]; omega)
  rw [List.append_nil] at h
  rw [loads, h]

/-- The SQLAlchemy dialects the service can run against: PostgreSQL is the
document-native backend (JSONB), MySQL and SQLite (and any other dialect)
are text backends. -/
inductive Dialect where
  | postgresql : Dialect
  | mysql : Dialect
  | sqlite : Dialect
  | other : Dialect
deriving DecidableEq

/-- The Python exception classes the service's failures are raised with.
`json.JSONDecodeError` is its own class: a strict subclass of `ValueError`
that an `except json.JSONDecodeError:` clause can catch specifically. -/
inductive PyExcClass where
  | valueError : PyExcClass
  | attributeError : PyExcClass
  | typeError : PyExcClass
  | jsonDecodeError : PyExcClass
deriving DecidableEq

/-- Python exception catching: an `except parent:` clause catches an
exception of class `c` when `c` equals `parent` or is a subclass of it; in
this taxonomy the only strict subclass is
`json.JSONDecodeError < ValueError`. -/
def PyExcClass.catchableAs (c parent : PyExcClass) : Bool :=
  decide (c = parent) ||
    (decide (c = PyExcClass.jsonDecodeError) &&
      decide (parent = PyExcClass.valueError))

/-- The error values the embedded service raises, each carrying the data its
Python message interpolates. -/
inductive PyErr where
  | valueErrorStaleSession (provided stored : Int) : PyErr
  | valueErrorInvalidUrl (url : List Char) : PyErr
  | valueErrorModuleNotFound (url : List Char) : PyErr
  | valueErrorEngineFailed (url : List Char) : PyErr
  | attributeErrorNoneType (attr : List Char) : PyErr
  | jsonDecodeError (text : List Char) : PyErr
  | typeErrorNotAString : PyErr
deriving DecidableEq

/-- The (most derived) Python exception class each raised error value
belongs to; `PyExcClass.catchableAs` relates it to the classes an `except`
clause can name. -/
def PyErr.cls : PyErr → PyExcClass
  | .valueErrorStaleSession _ _ => .valueError
  | .valueErrorInvalidUrl _ => .valueError
  | .valueErrorModuleNotFound _ => .valueError
  | .valueErrorEngineFailed _ => .valueError
  | .attributeErrorNoneType _ => .attributeError
  | .jsonDecodeError _ => .jsonDecodeError
  | .typeErrorNotAString => .typeError

/-- `DynamicJSON.process_bind_param`: a non-`None` value passes through
unchanged on PostgreSQL (JSONB takes the structured value directly) and is
serialized to JSON text for every other dialect; `None` stays `None`. -/
def DynamicJSON.process_bind_param (value : Option JValue) (d : Dialect) :
    Option JValue :=
  match value with
  | some v => if d = .postgresql then some v else some (.str (dumps v))
  | none => none

/-- `DynamicJSON.process_result_value`: a non-`None` stored value passes
through unchanged on PostgreSQL and is parsed from JSON text for every other
dialect; `None` stays `None`.  A text backend's stored value that is not a
string raises `TypeError` and unparsable text raises `json.JSONDecodeError`
(data corruption surfaced, not swallowed). -/
def DynamicJSON.process_result_value (value : Option JValue) (d : Dialect) :
    Except PyErr (Option JValue) :=
  match value with
  | none => .ok none
  | some v =>
    if d = .postgresql then .ok (some v)
    else
      match v with
      | .str t =>
        match loads t with
        | some w => .ok (some w)
        | none => .error (.jsonDecodeError t)
      | _ => .error .typeErrorNotAString

/-- Claim C4: for every JSON-compatible value (nested string-keyed mappings,
sequences, integer numbers, strings, booleans, null — numbers are embedded
as integers), decoding the `DynamicJSON` codec's encoded form yields the
original value on every supported backend class: PostgreSQL passes the
structured value through unchanged, text backends serialize to JSON text on
write and parse it back on read, and a `None` value round-trips to
`None`. -/
theorem dynamic_json_roundtrip (d : Dialect) (v : Option JValue) :
    DynamicJSON.process_result_value (DynamicJSON.process_bind_param v d) d =
      .ok v := by
  cases v with
  | none => cases d <;> rfl
  | some w =>
    by_cases hd : d = Dialect.postgresql
    · subst hd
      simp [DynamicJSON.process_bind_param, DynamicJSON.process_result_value]
    · simp [DynamicJSON.process_bind_param,
        DynamicJSON.process_result_value, hd, loads_dumps]

/-- The physical column types `DynamicJSON.load_dialect_impl` selects. -/
inductive JsonColumnImpl where
  | jsonb : JsonColumnImpl
  | longtext : JsonColumnImpl
  | text : JsonColumnImpl
deriving DecidableEq

/-- `DynamicJSON.load_dialect_impl`: JSONB on PostgreSQL, LONGTEXT on MySQL
(to avoid the data-too-long failure), TEXT elsewhere. -/
def DynamicJSON.load_dialect_impl (d : Dialect) : JsonColumnImpl :=
  match d with
  | .postgresql => .jsonb
  | .mysql => .longtext
  | _ => .text

/-- The timestamp column types `PreciseTimestamp` can select. -/
inductive TsColumnType where
  | dateTimeDefault : TsColumnType
  | mysqlDateTimeFsp (fsp : Nat) : TsColumnType
deriving DecidableEq

/-- `PreciseTimestamp.load_dialect_impl`: on MySQL select `DATETIME` with
fractional-seconds precision 6; on every other dialect keep the default
`DateTime` implementation. -/
def PreciseTimestamp.load_dialect_impl (d : Dialect) : TsColumnType :=
  match d with
  | .mysql => .mysqlDateTimeFsp 6
  | _ => .dateTimeDefault

/-- Modelled from the spec: the physical storage granularity, in
microseconds, of each backend's timestamp column type — the backend
behaviour itself is outside the sources.  MySQL's DATETIME keeps `fsp`
fractional digits (so its default truncates to whole seconds — granularity
10^6 microseconds); the default DateTime of the other supported backends
stores full microseconds (granularity 1). -/
def columnGranularity (d : Dialect) (c : TsColumnType) : Nat :=
  match c with
  | .mysqlDateTimeFsp f => 10 ^ (6 - f)
  | .dateTimeDefault =>
    match d with
    | .mysql => 10 ^ 6
    | _ => 1

/-- Storing a timestamp (an integer count of microseconds) truncates it to
the column's granularity; reading returns the stored value. -/
def storeTimestamp (d : Dialect) (c : TsColumnType) (t : Int) : Int :=
  t / (columnGranularity d c : Int) * (columnGranularity d c : Int)

/-- A write followed by a read through the column type `PreciseTimestamp`
selects for the dialect. -/
def preciseTimestampRoundtrip (d : Dialect) (t : Int) : Int :=
  storeTimestamp d (PreciseTimestamp.load_dialect_impl d) t

/-- Claim C7: the `PreciseTimestamp` codec preserves microsecond precision
across write and read on every backend: on MySQL, whose native DATETIME
granularity is coarser than microseconds, it selects the high-resolution
column type `DATETIME(fsp=6)`, so every timestamp — in particular one with
non-zero microseconds — reloads equal to the original at microsecond
granularity. -/
theorem precise_timestamp_roundtrip (d : Dialect) (t : Int) :
    preciseTimestampRoundtrip d t = t ∧
    PreciseTimestamp.load_dialect_impl Dialect.mysql =
      TsColumnType.mysqlDateTimeFsp 6 := by
  refine ⟨?_, rfl⟩
  cases d <;>
    simp [preciseTimestampRoundtrip, storeTimestamp, columnGranularity,
      PreciseTimestamp.load_dialect_impl]

/-- Modelled from the spec: the state-delta-bearing part of the in-memory
`EventActions` value (the `Event`/`EventActions` classes come from modules
outside the sources); an event may carry a flat state-delta map. -/
structure EventActionsR where
  state_delta : StateList

/-- Modelled from the spec: the in-memory `Event` — identifier, invocation
identifier, author, optional branch, microsecond timestamp, opaque content,
optional actions (which may carry a state delta), long-running-tool
identifiers, opaque grounding metadata, and the terminal-state flags.  The
source field `partial` is a Lean keyword and is embedded as
`isPartialEvent`. -/
structure EventR where
  id : List Char
  invocation_id : List Char
  author : List Char
  branch : Option (List Char)
  actions : Option EventActionsR
  timestamp : Int
  long_running_tool_ids : List (List Char)
  content : Option JValue
  grounding_metadata : Option JValue
  isPartialEvent : Option Bool
  turn_complete : Option Bool
  error_code : Option (List Char)
  error_message : Option (List Char)
  interrupted : Option Bool

/-- Modelled from the spec: the in-memory `Session` handed to and returned
by the service — its identity triple, merged state view, event list, and the
`last_update_time` concurrency token. -/
structure SessionR where
  app_name : List Char
  user_id : List Char
  id : List Char
  state : StateList
  events : List EventR
  last_update_time : Int

/-- A row of the `sessions` table (`StorageSession`). -/
structure StorageSessionR where
  app_name : List Char
  user_id : List Char
  id : List Char
  state : StateList
  create_time : Int
  update_time : Int

/-- A row of the `events` table (`StorageEvent`), with codec-encoded columns
held at their decoded value level. -/
structure StorageEventR where
  id : List Char
  app_name : List Char
  user_id : List Char
  session_id : List Char
  invocation_id : List Char
  author : List Char
  branch : Option (List Char)
  timestamp : Int
  content : Option JValue
  actions : Option EventActionsR
  long_running_tool_ids : List (List Char)
  grounding_metadata : Option JValue
  isPartialEvent : Option Bool
  turn_complete : Option Bool
  error_code : Option (List Char)
  error_message : Option (List Char)
  interrupted : Option Bool

/-- A row of the `app_states` table (`StorageAppState`). -/
structure StorageAppStateR where
  app_name : List Char
  state : StateList
  update_time : Int

/-- A row of the `user_states` table (`StorageUserState`). -/
structure StorageUserStateR where
  app_name : List Char
  user_id : List Char
  state : StateList
  update_time : Int

/-- The whole database: the four tables. -/
structure StorageR where
  sessions : List StorageSessionR
  events : List StorageEventR
  app_states : List StorageAppStateR
  user_states : List StorageUserStateR

/-- Primary-key lookup in the `sessions` table. -/
def lookup_storage_session (st : StorageR) (a u i : List Char) :
    Option StorageSessionR :=
  st.sessions.find? (fun s =>
    decide (s.app_name = a) && decide (s.user_id = u) && decide (s.id = i))

/-- Primary-key lookup in the `app_states` table. -/
def lookup_app_state (st : StorageR) (a : List Char) :
    Option StorageAppStateR :=
  st.app_states.find? (fun r => decide (r.app_name = a))

/-- Primary-key lookup in the `user_states` table. -/
def lookup_user_state (st : StorageR) (a u : List Char) :
    Option StorageUserStateR :=
  st.user_states.find? (fun r =>
    decide (r.app_name = a) && decide (r.user_id = u))

/-- Overwrite the state of an existing `app_states` row; the commit advances
its `update_time` (SQLAlchemy's `onupdate`). -/
def write_app_state (st : StorageR) (a : List Char) (sNew : StateList)
    (now : Int) : StorageR :=
  { st with app_states := st.app_states.map (fun r =>
      if r.app_name = a then { r with state := sNew, update_time := now }
      else r) }

/-- Overwrite the state of an existing `user_states` row. -/
def write_user_state (st : StorageR) (a u : List Char) (sNew : StateList)
    (now : Int) : StorageR :=
  { st with user_states := st.user_states.map (fun r =>
      if r.app_name = a ∧ r.user_id = u then
        { r with state := sNew, update_time := now }
      else r) }

/-- Overwrite the state of an existing `sessions` row; the commit advances
its `update_time`. -/
def write_session_state (st : StorageR) (a u i : List Char)
    (sNew : StateList) (now : Int) : StorageR :=
  { st with sessions := st.sessions.map (fun r =>
      if r.app_name = a ∧ r.user_id = u ∧ r.id = i then
        { r with state := sNew, update_time := now }
      else r) }

/-- Python truthiness of an `Optional[bool]`: only `True` is truthy. -/
def truthyOB : Option Bool → Bool
  | some true => true
  | _ => false

/-- The possible outcomes of the external `sqlalchemy.create_engine` call
made by `DatabaseSessionService.__init__`. -/
inductive CreateEngineOutcome where
  | success : CreateEngineOutcome
  | argumentError : CreateEngineOutcome
  | importError : CreateEngineOutcome
  | otherError : CreateEngineOutcome
deriving DecidableEq

/-- `DatabaseSessionService.__init__`: wraps every `create_engine` failure
in a `ValueError` — an `ArgumentError` becomes the invalid-URL message, an
`ImportError` the missing-module message, anything else the generic
engine-creation failure. -/
def DatabaseSessionService_init (db_url : List Char)
    (outcome : CreateEngineOutcome) : Except PyErr Unit :=
  match outcome with
  | .success => .ok ()
  | .argumentError => .error (.valueErrorInvalidUrl db_url)
  | .importError => .error (.valueErrorModuleNotFound db_url)
  | .otherError => .error (.valueErrorEngineFailed db_url)

/-- Modelled from the spec: `GetSessionConfig` (from the base-service module
outside the sources) — an optional at-or-after timestamp restriction and an
optional cap on the number of most recent events. -/
structure GetSessionConfigR where
  after_timestamp : Option Int
  num_recent_events : Option Nat

/-- Convert an event row back to an in-memory event, as `get_session`'s
comprehension does.  The content and grounding-metadata decoders of
`_session_util` live outside the sources; the spec treats those blobs as
opaque values that round-trip exactly, so they are embedded as the
identity. -/
def storageEventToEvent (e : StorageEventR) : EventR :=
  { id := e.id
    invocation_id := e.invocation_id
    author := e.author
    branch := e.branch
    actions := e.actions
    timestamp := e.timestamp
    long_running_tool_ids := e.long_running_tool_ids
    content := e.content
    grounding_metadata := e.grounding_metadata
    isPartialEvent := e.isPartialEvent
    turn_complete := e.turn_complete
    error_code := e.error_code
    error_message := e.error_message
    interrupted := e.interrupted }

/-- Insert an event row into a list sorted by descending timestamp. -/
def insertEventDesc (e : StorageEventR) :
    List StorageEventR → List StorageEventR
  | [] => [e]
  | x :: xs =>
    if x.timestamp ≥ e.timestamp then x :: insertEventDesc e xs
    else e :: x :: xs

/-- Order event rows by timestamp descending (the query's `order_by`). -/
def sortEventsDesc (l : List StorageEventR) : List StorageEventR :=
  l.foldr insertEventDesc []

/-- `DatabaseSessionService.get_session`: absence of the session row is an
absent result, not an error.  The events query filters only on
`StorageEvent.session_id == storage_session.id` (exactly as the source
does — it does not constrain `app_name` or `user_id`), optionally restricts
to rows at or after `config.after_timestamp` (a Python-falsy 0 disables the
restriction, mirroring the source's truthiness test), orders by timestamp
descending, caps to `config.num_recent_events` when truthy, and finally
reverses into chronological order; tiers are merged for the returned
state. -/
def get_session (st : StorageR) (app_name user_id session_id : List Char)
    (config : Option GetSessionConfigR) : Option SessionR :=
  match lookup_storage_session st app_name user_id session_id with
  | none => none
  | some ss =>
    let tfilter : StorageEventR → Bool :=
      match config with
      | some c =>
        match c.after_timestamp with
        | some ts =>
          if ts = 0 then (fun _ => true)
          else (fun e => decide (e.timestamp ≥ ts))
        | none => fun _ => true
      | none => fun _ => true
    let filtered := st.events.filter
      (fun e => decide (e.session_id = ss.id) && tfilter e)
    let sorted := sortEventsDesc filtered
    let limited :=
      match config with
      | some c =>
        match c.num_recent_events with
        | some n => if n = 0 then sorted else sorted.take n
        | none => sorted
      | none => sorted
    let app_state :=
      match lookup_app_state st app_name with
      | some r => r.state
      | none => []
    let user_state :=
      match lookup_user_state st app_name user_id with
      | some r => r.state
      | none => []
    let merged := _merge_state app_state user_state ss.state
    some
      { app_name := app_name
        user_id := user_id
        id := session_id
        state := merged
        events := (limited.reverse).map storageEventToEvent
        last_update_time := ss.update_time }

/-- `DatabaseSessionService.append_event`.  A truthy `event.partial` returns
the event at once, before any storage access.  Otherwise the session row is
fetched — fetching `None` and dereferencing `update_time` raises
`AttributeError`, there is no not-found branch — and the stale-session fence
runs before any mutation.  Past the fence, the event's state delta (if any)
is routed across the tiers; a tier is written back only when its delta is
non-empty (writing back a missing app/user row dereferences `None.state`,
again an `AttributeError`); the event row is inserted; the commit advances
`update_time` of each row actually modified to the commit time `now`; the
refreshed session `update_time` is copied back into the caller's session;
and the base service mirrors the event into the in-memory session (modelled
from the spec: the mirror appends the event to the session's event
list). -/
def append_event (st : StorageR) (now : Int) (session : SessionR)
    (event : EventR) : Except PyErr (StorageR × SessionR × EventR) :=
  if truthyOB event.isPartialEvent then .ok (st, session, event)
  else
    match lookup_storage_session st session.app_name session.user_id
        session.id with
    | none =>
      .error (.attributeErrorNoneType
        ['u', 'p', 'd', 'a', 't', 'e', '_', 't', 'i', 'm', 'e'])
    | some ss =>
      if ss.update_time > session.last_update_time then
        .error (.valueErrorStaleSession session.last_update_time
          ss.update_time)
      else
        let app_state :=
          match lookup_app_state st session.app_name with
          | some r => r.state
          | none => []
        let user_state :=
          match lookup_user_state st session.app_name session.user_id with
          | some r => r.state
          | none => []
        let session_state := ss.state
        let deltas :=
          match event.actions with
          | some acts =>
            if acts.state_delta.isEmpty then ([], [], [])
            else _extract_state_delta (some acts.state_delta)
          | none => ([], [], [])
        do
          let st1 ←
            if deltas.1.isEmpty then pure st
            else
              match lookup_app_state st session.app_name with
              | none =>
                throw (PyErr.attributeErrorNoneType
                  ['s', 't', 'a', 't', 'e'])
              | some _ =>
                pure (write_app_state st session.app_name
                  (dict_update app_state deltas.1) now)
          let st2 ←
            if deltas.2.1.isEmpty then pure st1
            else
              match lookup_user_state st session.app_name session.user_id
                  with
              | none =>
                throw (PyErr.attributeErrorNoneType
                  ['s', 't', 'a', 't', 'e'])
              | some _ =>
                pure (write_user_state st1 session.app_name session.user_id
                  (dict_update user_state deltas.2.1) now)
          let st3 :=
            if deltas.2.2.isEmpty then st2
            else write_session_state st2 session.app_name session.user_id
              session.id (dict_update session_state deltas.2.2) now
          let storage_event : StorageEventR :=
            { id := event.id
              app_name := session.app_name
              user_id := session.user_id
              session_id := session.id
              invocation_id := event.invocation_id
              author := event.author
              branch := event.branch
              timestamp := event.timestamp
              content := event.content
              actions := event.actions
              long_running_tool_ids := event.long_running_tool_ids
              grounding_metadata := event.grounding_metadata
              isPartialEvent := event.isPartialEvent
              turn_complete := event.turn_complete
              error_code := event.error_code
              error_message := event.error_message
              interrupted := event.interrupted }
          let st4 := { st3 with events := st3.events ++ [storage_event] }
          let newTime := if deltas.2.2.isEmpty then ss.update_time else now
          let session' :=
            { session with
                last_update_time := newTime
                events := session.events ++ [event] }
          return (st4, session', event)

/-- A plain non-partial event with no actions. -/
def evPlain : EventR :=
  { id := ['e', '1']
    invocation_id := ['i']
    author := ['a']
    branch := none
    actions := none
    timestamp := 3
    long_running_tool_ids := []
    content := none
    grounding_metadata := none
    isPartialEvent := none
    turn_complete := none
    error_code := none
    error_message := none
    interrupted := none }

/-- The same event marked partial (an in-flight streaming chunk). -/
def evPartialEx : EventR := { evPlain with isPartialEvent := some true }

/-- A stored session row whose update time has advanced to 2. -/
def ssEx : StorageSessionR :=
  { app_name := ['a']
    user_id := ['u']
    id := ['s']
    state := []
    create_time := 0
    update_time := 2 }

/-- A database holding only the session row `ssEx`. -/
def stEx : StorageR :=
  { sessions := [ssEx], events := [], app_states := [], user_states := [] }

/-- An empty database. -/
def stEmpty : StorageR :=
  { sessions := [], events := [], app_states := [], user_states := [] }

/-- A caller's session object that last read the stored session at update
time 1 — older than the stored 2. -/
def sesEx : SessionR :=
  { app_name := ['a']
    user_id := ['u']
    id := ['s']
    state := []
    events := []
    last_update_time := 1 }

/-- Claim C1: for every `append_event` call with a non-partial event on an
existing session, if the stored row's `update_time` is strictly greater than
the caller-supplied `session.last_update_time`, the call fails with the
stale-session `ValueError`; the rejection happens before any mutation, so
the error return carries no new storage — no app-, user- or session-state
tier is modified and no event row is inserted. -/
theorem append_event_stale_conflict (st : StorageR) (now : Int)
    (session : SessionR) (event : EventR) (ss : StorageSessionR)
    (hp : truthyOB event.isPartialEvent = false)
    (hl : lookup_storage_session st session.app_name session.user_id
      session.id = some ss)
    (hstale : ss.update_time > session.last_update_time) :
    append_event st now session event =
      .error (.valueErrorStaleSession session.last_update_time
        ss.update_time) := by
  simp [append_event, hp, hl, hstale]

/-- Witness for C1: with the stored update time 2 and a caller token of 1,
the append is rejected with the stale-session conflict. -/
theorem append_event_stale_conflict_witness :
    append_event stEx 5 sesEx evPlain =
      .error (PyErr.valueErrorStaleSession 1 2) :=
  append_event_stale_conflict stEx 5 sesEx evPlain ssEx rfl rfl (by decide)

/-- Claim C5: appending an event whose `partial` flag is truthy returns the
event unchanged and performs no storage operation at all: the returned
storage and session are the originals, so no event row is inserted, no state
tier changes, and neither the fence check nor the in-memory mirroring
runs (the early return precedes every storage access). -/
theorem append_event_partial_noop (st : StorageR) (now : Int)
    (session : SessionR) (event : EventR)
    (hp : truthyOB event.isPartialEvent = true) :
    append_event st now session event = .ok (st, session, event) := by
  simp [append_event, hp]

/-- Witness for C5: a partial event appended against an empty database (no
session row at all) still returns unchanged — nothing is even looked up. -/
theorem append_event_partial_noop_witness :
    append_event stEmpty 7 sesEx evPartialEx =
      .ok (stEmpty, sesEx, evPartialEx) :=
  append_event_partial_noop stEmpty 7 sesEx evPartialEx rfl

/-- Claim C10: a non-partial append presupposes the session row exists; when
it does not, the stale check dereferences the absent (`None`) row and raises
the untyped `AttributeError` for `update_time` — there is no not-found
branch and no session creation on the append path. -/
theorem append_event_missing_session_attribute_error (st : StorageR)
    (now : Int) (session : SessionR) (event : EventR)
    (hp : truthyOB event.isPartialEvent = false)
    (hl : lookup_storage_session st session.app_name session.user_id
      session.id = none) :
    append_event st now session event =
      .error (.attributeErrorNoneType
        ['u', 'p', 'd', 'a', 't', 'e', '_', 't', 'i', 'm', 'e']) := by
  simp [append_event, hp, hl]

/-- Witness for C10: a non-partial append against an empty database raises
the `AttributeError`. -/
theorem append_event_missing_session_attribute_error_witness :
    append_event stEmpty 7 sesEx evPlain =
      .error (PyErr.attributeErrorNoneType
        ['u', 'p', 'd', 'a', 't', 'e', '_', 't', 'i', 'm', 'e']) :=
  append_event_missing_session_attribute_error stEmpty 7 sesEx evPlain rfl
    rfl

/-- Session row (app1, u1, "s"). -/
def ssC6a : StorageSessionR :=
  { app_name := ['a', '1']
    user_id := ['u', '1']
    id := ['s']
    state := []
    create_time := 0
    update_time := 0 }

/-- Session row (app2, u2, "s") — a different session that happens to share
the session identifier "s". -/
def ssC6b : StorageSessionR :=
  { app_name := ['a', '2']
    user_id := ['u', '2']
    id := ['s']
    state := []
    create_time := 0
    update_time := 0 }

/-- An event row belonging to session (app2, u2, "s"). -/
def evC6 : StorageEventR :=
  { id := ['e', '1']
    app_name := ['a', '2']
    user_id := ['u', '2']
    session_id := ['s']
    invocation_id := ['i']
    author := ['b']
    branch := none
    timestamp := 1
    content := none
    actions := none
    long_running_tool_ids := []
    grounding_metadata := none
    isPartialEvent := none
    turn_complete := none
    error_code := none
    error_message := none
    interrupted := none }

/-- A database holding both sessions and the one event of (app2, u2, "s"). -/
def stC6 : StorageR :=
  { sessions := [ssC6a, ssC6b]
    events := [evC6]
    app_states := []
    user_states := [] }

/-- Claim C6 (evaluation at the failing input): reading session
(app1, u1, "s") returns the event `e1` even though that event row belongs to
session (app2, u2, "s") — the source filters the events query by
`session_id` alone, so a session receives the events of every session
sharing its identifier, contradicting "exactly that session's own
events". -/
theorem get_session_returns_foreign_event :
    (get_session stC6 ['a', '1'] ['u', '1'] ['s'] none).map
      (fun r => r.events.map (fun e => e.id)) = some [['e', '1']] ∧
    evC6.app_name = ['a', '2'] ∧ evC6.user_id = ['u', '2'] ∧
    ssC6a.app_name = ['a', '1'] ∧ ssC6a.user_id = ['u', '1'] := by
  exact ⟨rfl, rfl, rfl, rfl, rfl⟩

/-- Claim C9 (counterexample): the stale-session conflict raised by
`append_event` and the configuration error raised at service construction
are both `ValueError` — the same exception class — so a caller cannot branch
between conflict and configuration failure by exception type, refuting the
claim that every failure class propagates as a distinct identifiable
exception. -/
theorem error_classes_counterexample :
    append_event stEx 5 sesEx evPlain =
      .error (PyErr.valueErrorStaleSession 1 2) ∧
    DatabaseSessionService_init ['x'] CreateEngineOutcome.argumentError =
      .error (PyErr.valueErrorInvalidUrl ['x']) ∧
    (PyErr.valueErrorStaleSession 1 2).cls =
      (PyErr.valueErrorInvalidUrl ['x']).cls := by
  exact ⟨rfl, rfl, rfl⟩

/-- Claim C9 as amended: the stale-session conflict and all three
configuration errors are raised as the same exception class `ValueError`,
as distinct values distinguishable only by their payloads, so a caller
cannot branch between conflict and configuration failure by exception
class — the distinction the counterexample refutes.  The other failure
classes remain identifiable: data corruption raises
`json.JSONDecodeError`, a strict subclass of `ValueError` that can be
caught specifically (while still being caught by an `except ValueError:`
clause, and not the other way around); the missing-session failure on
append is an `AttributeError`; and not-found on read is an absent result
rather than an exception. -/
theorem error_classes_amended (t0 t1 : Int) (url text : List Char) :
    (PyErr.valueErrorStaleSession t0 t1).cls = PyExcClass.valueError ∧
    (PyErr.valueErrorInvalidUrl url).cls = PyExcClass.valueError ∧
    (PyErr.valueErrorModuleNotFound url).cls = PyExcClass.valueError ∧
    (PyErr.valueErrorEngineFailed url).cls = PyExcClass.valueError ∧
    (PyErr.jsonDecodeError text).cls = PyExcClass.jsonDecodeError ∧
    PyExcClass.jsonDecodeError ≠ PyExcClass.valueError ∧
    PyExcClass.catchableAs (PyErr.jsonDecodeError text).cls
      PyExcClass.valueError = true ∧
    PyExcClass.catchableAs (PyErr.valueErrorStaleSession t0 t1).cls
      PyExcClass.jsonDecodeError = false ∧
    (PyErr.attributeErrorNoneType url).cls = PyExcClass.attributeError ∧
    PyExcClass.attributeError ≠ PyExcClass.valueError ∧
    PyErr.valueErrorStaleSession t0 t1 ≠ PyErr.valueErrorInvalidUrl url ∧
    get_session stEmpty ['a'] ['u'] ['s'] none = none := by
  refine ⟨rfl, rfl, rfl, rfl, rfl, by decide, rfl, rfl, rfl, by decide, ?_,
    rfl⟩
  intro h
  exact PyErr.noConfusion h
